import Mathlib

/-!
# Verification of the glcs packetstream ring buffer

Shallow embedding of `src/packetstream.c`: a bounded multi-producer /
multi-consumer packet ring buffer.  Headers and payload bytes live in a
wrap-around arena; five position indices, a signed free-byte counter and
two counting semaphores form the shared state (`struct ps_state_s`).

The embedding is sequential: mutexes always succeed (each modelled
operation runs while holding the locks the C code takes), semaphores are
natural-number counters (`sem_trywait` succeeds iff the counter is
positive, a blocking `sem_wait` on a zero counter blocks, modelled as
fuel exhaustion `none`).  `errno` constants carry their Linux values.
`ps_flags_t` bit masks from the missing public header `packetstream.h`
are modelled as named boolean fields.  The optional statistics block is
not part of `ps_state_s` and is omitted.
-/

/-- `sizeof(struct ps_packet_header_s)`: a 32-bit `ps_flags_t` padded next
to a 64-bit `size_t` on the LP64 targets this code is built for. -/
def headerSize : Nat := 16

/-- errno value EINVAL. -/
def EINVAL : Nat := 22
/-- errno value ENOBUFS. -/
def ENOBUFS : Nat := 105
/-- errno value EBUSY. -/
def EBUSY : Nat := 16
/-- errno value EINTR. -/
def EINTR : Nat := 4
/-- errno value EAGAIN. -/
def EAGAIN : Nat := 11

/-- `struct ps_packet_header_s`: the in-arena packet header.  The two
flag bits `PS_PACKET_HEADER_WRITTEN` and `PS_PACKET_HEADER_READ` are
modelled as booleans; `size` is the payload length excluding the header. -/
structure Header where
  written : Bool
  read : Bool
  size : Nat
deriving Repr, DecidableEq

/-- The all-zero header (`memset(header, 0, sizeof ...)`). -/
def Header.zero : Header := ⟨false, false, 0⟩

/-- `struct ps_state_s`: the shared buffer state.  The four buffer flag
bits are boolean fields; `read_packets` / `written_packets` are the
semaphore counters. -/
structure State where
  ready : Bool
  cancelled : Bool
  pshared : Bool
  stats : Bool
  size : Nat
  read_pos : Nat
  write_pos : Nat
  read_next : Nat
  write_next : Nat
  read_first : Nat
  free_bytes : Int
  read_packets : Nat
  written_packets : Nat
deriving Repr, DecidableEq

/-- `struct ps_fake_dma_s`: a staging buffer owned by a packet handle. -/
structure FakeDma where
  mem : List Nat
  mem_size : Nat
  size : Nat
  pos : Nat
  free : Bool
deriving Repr, DecidableEq

/-- `ps_packet_t`: a packet handle.  The flag bits `PS_PACKET_WRITE`,
`PS_PACKET_READ`, `PS_PACKET_TRY`, `PS_PACKET_SIZE_SET` are boolean
fields; `buffer_pos` is the header offset, `pos` the payload cursor,
`reserved` the bytes accounted against `free_bytes`. -/
structure Packet where
  write : Bool
  read : Bool
  isTry : Bool
  sizeSet : Bool
  buffer_pos : Nat
  pos : Nat
  reserved : Nat
  fakeDma : List FakeDma
deriving Repr, DecidableEq

/-- The header array of the arena: a header value at every byte offset
(only offsets reachable from the indices are meaningful). -/
abbrev Headers : Type := Nat → Header

/-- The payload bytes of the arena. -/
abbrev Arena : Type := Nat → Nat

/-- Write the header at offset `p` (a store through
`(struct ps_packet_header_s *) &buffer->buffer[p]`). -/
def setHeader (hs : Headers) (p : Nat) (h : Header) : Headers :=
  fun i => if i = p then h else hs i

/-- `ps_buffer_check` (packetstream.c:1029) on a non-null buffer. -/
def ps_buffer_check (s : State) : Nat :=
  if ¬s.ready then EINVAL
  else if s.cancelled then EINTR
  else 0

/-- `ps_packet_check` (packetstream.c:1043) on a non-null handle. -/
def ps_packet_check (s : State) (pk : Packet) : Nat :=
  if ¬(pk.read ∨ pk.write) then EINVAL
  else ps_buffer_check s

/-- `move_pos` (packetstream.c:306): advance a position past a packet of
payload `packet_size`, placing the next header at 0 when it would not fit
before the arena end. -/
def move_pos (pos buf_size packet_size : Nat) : Nat :=
  let p := (headerSize + pos + packet_size) % buf_size
  if p + headerSize > buf_size then 0 else p

/-- Modelled from the spec (section 4.1), for comparison with `move_pos`:
`advance(p, arenaSize, payloadSize) = q` where
`q = (p + headerSize + payloadSize) mod arenaSize`, then if
`q + headerSize > arenaSize` set `q = 0`. -/
def advanceSpec (p arenaSize payloadSize : Nat) : Nat :=
  let q := (p + headerSize + payloadSize) % arenaSize
  if q + headerSize > arenaSize then 0 else q

/-- The inlined index advance of `ps_packet_reserve` (packetstream.c:641):
`read_first = (read_first + headerSize + header->size) % size`, then if the
next header does not fit, credit the end-of-arena padding and wrap to 0.
Returns the new `read_first` and the padding credited to `free_bytes`. -/
def reclaimAdvance (size read_first hsize : Nat) : Nat × Nat :=
  let rf := (read_first + headerSize + hsize) % size
  if rf + headerSize > size then (0, size - rf) else (rf, 0)

/-- The inlined index advance of `ps_packet_setsize` (packetstream.c:539):
`write_next = (headerSize + write_next + size) % state->size`, then if the
next header does not fit, record the padding in `res` and wrap to 0.
Returns the new `write_next` and `res`. -/
def setsizeAdvance (size write_next psize : Nat) : Nat × Nat :=
  let wn := (headerSize + write_next + psize) % size
  if wn + headerSize > size then (0, size - wn) else (wn, 0)

/-- One reclaim step of `ps_packet_reserve`'s inner loop
(packetstream.c:637-647): credit `headerSize + header->size` plus any
end-of-arena padding to `free_bytes` and advance `read_first`. -/
def reclaimOne (hs : Headers) (s : State) : State :=
  let hdr := hs s.read_first
  let a := reclaimAdvance s.size s.read_first hdr.size
  { s with
    free_bytes := s.free_bytes + ((headerSize + hdr.size : Nat) : Int) + (a.2 : Int),
    read_first := a.1 }

/-- The inner `do { ... } while (!sem_trywait(&state->read_packets))`
loop of `ps_packet_reserve` (packetstream.c:637-653): reclaim the packet
at `read_first`, observe cancellation (EINTR), and continue while a
released packet is immediately available.  `none` on fuel exhaustion. -/
def reclaimLoop (hs : Headers) : Nat → State → Option (Nat × State)
  | 0, _ => none
  | fuel + 1, s =>
    let s' := reclaimOne hs s
    if s'.cancelled then some (EINTR, s')
    else if s'.read_packets = 0 then some (0, s')
    else reclaimLoop hs fuel { s' with read_packets := s'.read_packets - 1 }

/-- The outer `while (state->free_bytes < 0)` loop of `ps_packet_reserve`
(packetstream.c:609-654).  `delta = len - packet->reserved` is the
speculative deduction, restored on a failed trywait under TRY.  A
blocking `sem_wait` with no token available blocks forever in the
sequential model: `none`. -/
def reserveLoop (hs : Headers) (delta : Nat) (isTry : Bool) : Nat → State → Option (Nat × State)
  | 0, _ => none
  | fuel + 1, s =>
    if 0 ≤ s.free_bytes then some (0, s)
    else if s.read_packets = 0 then
      if isTry then some (EBUSY, { s with free_bytes := s.free_bytes + delta })
      else none
    else
      match reclaimLoop hs fuel { s with read_packets := s.read_packets - 1 } with
      | none => none
      | some (c, s') =>
        if c = 0 then reserveLoop hs delta isTry fuel s' else some (c, s')

/-- `ps_packet_reserve` (packetstream.c:600).  NOTE `len` is the absolute
packet size, not added to the current reservation.  Returns the status
code, the buffer state and the handle; `none` when the call blocks. -/
def ps_packet_reserve (hs : Headers) (s : State) (pk : Packet) (len fuel : Nat) :
    Option (Nat × State × Packet) :=
  if len ≤ pk.reserved then some (0, s, pk)
  else
    let delta := len - pk.reserved
    match reserveLoop hs delta pk.isTry fuel { s with free_bytes := s.free_bytes - delta } with
    | none => none
    | some (c, s') =>
      if c = 0 then some (0, s', { pk with reserved := len }) else some (c, s', pk)

/-- `memcpy(&arena[offs], src, src.length)`. -/
def memcpyTo (a : Arena) (offs : Nat) (src : List Nat) : Arena :=
  fun i => if offs ≤ i ∧ i < offs + src.length then src.getD (i - offs) 0 else a i

/-- `memcpy(dest, &arena[offs], n)`: the `n` arena bytes from `offs`. -/
def readBytes (a : Arena) (offs n : Nat) : List Nat :=
  (List.range n).map fun i => a (offs + i)

/-- `ps_packet_read` (packetstream.c:754): bounds-check the cursor against
`header->size`, then copy `size` payload bytes, split at the arena end.
Returns the status, the bytes read, and the updated handle. -/
def ps_packet_read (hs : Headers) (a : Arena) (s : State) (pk : Packet) (size : Nat) :
    Nat × List Nat × Packet :=
  let c := ps_packet_check s pk
  if c ≠ 0 then (c, [], pk)
  else if pk.pos + size > (hs pk.buffer_pos).size then (EINVAL, [], pk)
  else
    let offs := (pk.buffer_pos + headerSize + pk.pos) % s.size
    let data :=
      if offs + size > s.size then
        readBytes a offs (s.size - offs) ++ readBytes a 0 (size - (s.size - offs))
      else readBytes a offs size
    (0, data, { pk with pos := pk.pos + size })

/-- The copy tail of `ps_packet_write` (packetstream.c:796-812): split
memcpy at the arena end, advance the cursor, and grow `header->size` when
the cursor moved past it. -/
def writeFinish (hs : Headers) (a : Arena) (s : State) (pk : Packet) (src : List Nat) :
    Nat × State × Headers × Arena × Packet :=
  let offs := (pk.buffer_pos + headerSize + pk.pos) % s.size
  let a' :=
    if offs + src.length > s.size then
      memcpyTo (memcpyTo a offs (src.take (s.size - offs))) 0 (src.drop (s.size - offs))
    else memcpyTo a offs src
  let pk' := { pk with pos := pk.pos + src.length }
  let hs' :=
    if pk'.pos > (hs pk.buffer_pos).size then
      setHeader hs pk.buffer_pos { hs pk.buffer_pos with size := pk'.pos }
    else hs
  (0, s, hs', a', pk')

/-- `ps_packet_write` (packetstream.c:778): bounds-check (against the
frozen `header->size`, or against the arena minus two header slots with a
reservation when the size is not yet set), then copy. -/
def ps_packet_write (hs : Headers) (a : Arena) (s : State) (pk : Packet)
    (src : List Nat) (fuel : Nat) :
    Option (Nat × State × Headers × Arena × Packet) :=
  let c := ps_packet_check s pk
  if c ≠ 0 then some (c, s, hs, a, pk)
  else if pk.sizeSet then
    if pk.pos + src.length > (hs pk.buffer_pos).size then some (EINVAL, s, hs, a, pk)
    else some (writeFinish hs a s pk src)
  else if pk.pos + src.length + headerSize * 2 > s.size then some (ENOBUFS, s, hs, a, pk)
  else
    match ps_packet_reserve hs s pk (pk.pos + src.length) fuel with
    | none => none
    | some (r, s', pk') =>
      if r ≠ 0 then some (r, s', hs, a, pk')
      else some (writeFinish hs a s' pk' src)

/-- The cursor-move tail of `ps_packet_seek` (packetstream.c:904-907). -/
def seekFinish (hs : Headers) (s : State) (pk : Packet) (pos : Nat) :
    Nat × State × Headers × Packet :=
  let pk' := { pk with pos := pos }
  let hs' :=
    if ¬pk'.sizeSet ∧ pk'.write ∧ pk'.pos > (hs pk'.buffer_pos).size then
      setHeader hs pk'.buffer_pos { hs pk'.buffer_pos with size := pk'.pos }
    else hs
  (0, s, hs', pk')

/-- `ps_packet_seek` (packetstream.c:886). -/
def ps_packet_seek (hs : Headers) (s : State) (pk : Packet) (pos fuel : Nat) :
    Option (Nat × State × Headers × Packet) :=
  let c := ps_packet_check s pk
  if c ≠ 0 then some (c, s, hs, pk)
  else if (pk.sizeSet ∨ pk.read) ∧ pos > (hs pk.buffer_pos).size then
    some (EINVAL, s, hs, pk)
  else if ¬pk.sizeSet ∧ pk.write then
    if pos + headerSize > s.size then some (EINVAL, s, hs, pk)
    else
      match ps_packet_reserve hs s pk pos fuel with
      | none => none
      | some (r, s', pk') =>
        if r ≠ 0 then some (r, s', hs, pk')
        else some (seekFinish hs s' pk' pos)
  else some (seekFinish hs s pk pos)

/-- `ps_packet_fakedma_cut` (packetstream.c:976) on the staging list:
free entries past `size`, trim entries straddling `size`. -/
def ps_packet_fakedma_cut (l : List FakeDma) (size : Nat) : List FakeDma :=
  l.map fun d =>
    if d.pos > size then { d with free := true }
    else if d.pos + d.size > size then { d with size := size - d.pos }
    else d

/-- `ps_packet_fakedma_freeall` (packetstream.c:991) on the staging list. -/
def ps_packet_fakedma_freeall (l : List FakeDma) : List FakeDma :=
  l.map fun d => if ¬d.free then { d with free := true } else d

/-- `ps_packet_setsize` (packetstream.c:523). -/
def ps_packet_setsize (hs : Headers) (s : State) (pk : Packet) (size fuel : Nat) :
    Option (Nat × State × Headers × Packet) :=
  let c := ps_packet_check s pk
  if c ≠ 0 then some (c, s, hs, pk)
  else if ¬pk.write ∨ pk.sizeSet then some (EINVAL, s, hs, pk)
  else if size + headerSize * 2 > s.size then some (ENOBUFS, s, hs, pk)
  else
    match ps_packet_reserve hs s pk size fuel with
    | none => none
    | some (r, s1, pk1) =>
      if r ≠ 0 then some (r, s1, hs, pk1)
      else
        let adv := setsizeAdvance s1.size s1.write_next size
        let pk2 := { pk1 with isTry := false }
        match ps_packet_reserve hs s1 pk2 (headerSize + size + adv.2) fuel with
        | none => none
        | some (r2, s2, pk3) =>
          if r2 ≠ 0 then some (r2, s2, hs, pk3)
          else
            let s3 := { s2 with
              free_bytes := s2.free_bytes +
                ((pk3.reserved : Int) - ((size + headerSize + adv.2 : Nat) : Int)),
              write_next := adv.1 }
            let hs1 := setHeader hs pk3.buffer_pos { hs pk3.buffer_pos with size := size }
            let hs2 := setHeader hs1 adv.1 Header.zero
            let pk4 := { pk3 with
              sizeSet := true,
              fakeDma := ps_packet_fakedma_cut pk3.fakeDma size }
            some (0, s3, hs2, pk4)

/-- `ps_packet_cancel` (packetstream.c:578). -/
def ps_packet_cancel (hs : Headers) (s : State) (pk : Packet) :
    Nat × State × Headers × Packet :=
  let c := ps_packet_check s pk
  if c ≠ 0 then (c, s, hs, pk)
  else if ¬pk.write then (EINVAL, s, hs, pk)
  else if pk.sizeSet then (EINVAL, s, hs, pk)
  else
    let s' := { s with free_bytes := s.free_bytes + (pk.reserved : Int) }
    let hs' := setHeader hs pk.buffer_pos Header.zero
    let pk' := { pk with
      write := false, read := false, isTry := false, sizeSet := false,
      fakeDma := ps_packet_fakedma_freeall pk.fakeDma }
    (0, s', hs', pk')

/-- `ps_packet_tell` (packetstream.c:880): the second component is the
out parameter `pos`, which the function never writes. -/
def ps_packet_tell (s : State) (pk : Packet) (pos : Nat) : Nat × Nat :=
  let c := ps_packet_check s pk
  if c ≠ 0 then (c, pos)
  else (pk.pos, pos)

/-- The node loop of `ps_packet_fakedma_commitall` (packetstream.c:959):
for each non-free entry, seek to its position, write its bytes back into
the arena, and mark it free; errors abort the walk. -/
def commitGo (fuel : Nat) (hs : Headers) (a : Arena) (s : State) (pk : Packet) :
    List FakeDma → Option (Nat × State × Headers × Arena × Packet × List FakeDma)
  | [] => some (0, s, hs, a, pk, [])
  | d :: rest =>
    if d.free then
      match commitGo fuel hs a s pk rest with
      | none => none
      | some (r, s', hs', a', pk', rest') => some (r, s', hs', a', pk', d :: rest')
    else
      match ps_packet_seek hs s pk d.pos fuel with
      | none => none
      | some (r, s1, hs1, pk1) =>
        if r ≠ 0 then some (r, s1, hs1, a, pk1, d :: rest)
        else
          match ps_packet_write hs1 a s1 pk1 (d.mem.take d.size) fuel with
          | none => none
          | some (r2, s2, hs2, a2, pk2) =>
            if r2 ≠ 0 then some (r2, s2, hs2, a2, pk2, d :: rest)
            else
              match commitGo fuel hs2 a2 s2 pk2 rest with
              | none => none
              | some (r3, s3, hs3, a3, pk3, rest') =>
                some (r3, s3, hs3, a3, pk3, { d with free := true } :: rest')

/-- `ps_packet_fakedma_commitall` (packetstream.c:953). -/
def ps_packet_fakedma_commitall (hs : Headers) (a : Arena) (s : State) (pk : Packet)
    (fuel : Nat) : Option (Nat × State × Headers × Arena × Packet) :=
  match commitGo fuel hs a s pk pk.fakeDma with
  | none => none
  | some (r, s', hs', a', pk', l') => some (r, s', hs', a', { pk' with fakeDma := l' })

/-- `header->flags |= PS_PACKET_HEADER_WRITTEN` (packetstream.c:723). -/
def markWritten (hs : Headers) (p : Nat) : Headers :=
  setHeader hs p { hs p with written := true }

/-- The commit walk of `ps_packet_closewrite` (packetstream.c:728-735):
`do { pos = move_pos(pos, size, header->size); sem_post(written_packets);
header = &buffer[pos]; } while (header->flags & WRITTEN)`.  Returns the
final position and the number of posts; `none` on fuel exhaustion. -/
def closeWalk (hs : Headers) (sz : Nat) : Nat → Nat → Option (Nat × Nat)
  | 0, _ => none
  | fuel + 1, pos =>
    let pos' := move_pos pos sz (hs pos).size
    if (hs pos').written then
      match closeWalk hs sz fuel pos' with
      | none => none
      | some (p, n) => some (p, n + 1)
    else some (pos', 1)

/-- `packet->header = NULL; packet->flags = 0` at the end of a close. -/
def pkClear (pk : Packet) : Packet :=
  { pk with write := false, read := false, isTry := false, sizeSet := false }

/-- The tail of `ps_packet_closewrite` after the size is frozen
(packetstream.c:712-744): commit the staging buffers, set the WRITTEN bit,
and when this packet holds the commit tail (`write_pos == buffer_pos`)
walk the consecutive WRITTEN headers, posting `written_packets` once per
step, leaving `write_pos` at the first non-written header. -/
def closewriteRest (hs : Headers) (a : Arena) (s : State) (pk : Packet) (fuel : Nat) :
    Option (Nat × State × Headers × Arena × Packet) :=
  match ps_packet_fakedma_commitall hs a s pk fuel with
  | none => none
  | some (r, s1, hs1, a1, pk1) =>
    if r ≠ 0 then some (r, s1, hs1, a1, pk1)
    else
      let hs2 := markWritten hs1 pk1.buffer_pos
      if s1.write_pos = pk1.buffer_pos then
        match closeWalk hs2 s1.size fuel pk1.buffer_pos with
        | none => none
        | some (p, n) =>
          some (0, { s1 with write_pos := p, written_packets := s1.written_packets + n },
                hs2, a1, pkClear pk1)
      else some (0, s1, hs2, a1, pkClear pk1)

/-- `ps_packet_closewrite` (packetstream.c:701): freeze the size from the
cursor-implied `header->size` when it is not set yet, then commit. -/
def ps_packet_closewrite (hs : Headers) (a : Arena) (s : State) (pk : Packet) (fuel : Nat) :
    Option (Nat × State × Headers × Arena × Packet) :=
  if ¬pk.sizeSet then
    match ps_packet_setsize hs s pk (hs pk.buffer_pos).size fuel with
    | none => none
    | some (r, s', hs', pk') =>
      if r ≠ 0 then some (r, s', hs', a, pk')
      else closewriteRest hs' a s' pk' fuel
  else closewriteRest hs a s pk fuel

/-- The `while (!sem_trywait(&state->written_packets))` loop of
`ps_buffer_drain` (packetstream.c:371-382), recursing on the semaphore
value (`sem_trywait` fails exactly when it is 0 in the sequential model).
`res` accumulates the return value. -/
def drainLoop : Nat → Headers → State → Nat → Headers × State × Nat
  | 0, hs, s, res => (hs, s, res)
  | n + 1, hs, s, res =>
    let pos := s.read_next
    let hdr := hs pos
    let hs' := setHeader hs pos { hdr with read := true }
    let rn := move_pos s.read_next s.size hdr.size
    if s.read_pos = pos then
      drainLoop n hs'
        { s with
          read_next := rn, read_pos := rn,
          read_packets := s.read_packets + 1, written_packets := n } (res + 1)
    else
      drainLoop n hs' { s with read_next := rn, written_packets := n } res

/-- `ps_buffer_drain` (packetstream.c:357): both `read_mutex` and
`read_close_mutex` are held across the loop (locks always succeed in the
sequential model, so the `-EINVAL` lock-failure paths are unreachable). -/
def ps_buffer_drain (hs : Headers) (s : State) : Headers × State × Nat :=
  drainLoop s.written_packets hs s 0

/-- `ps_buffer_init` (packetstream.c:182), non-shared path (no `__PS_SHM`
segment, allocation succeeding): when the attribute flags contain READY
the function returns before initializing the state (`none`); otherwise
the zeroed state gets its size, flags, `free_bytes = size - headerSize`,
zero-valued semaphores, and finally the READY flag. -/
def ps_buffer_init (size : Nat) (ready cancelled pshared stats : Bool) : Option State :=
  if ready then none
  else some {
    ready := true, cancelled := cancelled, pshared := pshared, stats := stats,
    size := size,
    read_pos := 0, write_pos := 0, read_next := 0, write_next := 0, read_first := 0,
    free_bytes := (size : Int) - (headerSize : Int),
    read_packets := 0, written_packets := 0 }

/-- The chain of header positions from `p`: `chainPos hs sz p k` is `p`
advanced `k` times by the wrap rule, each step past the packet whose
header sits at the current position. -/
def chainPos (hs : Headers) (sz : Nat) (p : Nat) : Nat → Nat
  | 0 => p
  | k + 1 => chainPos hs sz (move_pos p sz (hs p).size) k

/-- `k` reclaim steps from `read_first`: the final position and the total
byte credit (header + payload + end-of-arena padding per packet). -/
def reclaimChain (hs : Headers) (sz : Nat) (rf : Nat) : Nat → Nat × Nat
  | 0 => (rf, 0)
  | k + 1 =>
    let hdr := hs rf
    let a := reclaimAdvance sz rf hdr.size
    let rest := reclaimChain hs sz a.1 k
    (rest.1, headerSize + hdr.size + a.2 + rest.2)

/-- C2: `move_pos` equals the spec's advance rule, and the inlined index
advances in `ps_packet_reserve` and `ps_packet_setsize` compute the same
position. -/
theorem move_pos_is_the_wrap_rule (p asize n : Nat) (hp : p < asize) :
    move_pos p asize n = advanceSpec p asize n ∧
    (reclaimAdvance asize p n).1 = move_pos p asize n ∧
    (setsizeAdvance asize p n).1 = move_pos p asize n := by
  have h1 : headerSize + p + n = p + headerSize + n := by ring
  refine ⟨?_, ?_, ?_⟩
  · simp only [move_pos, advanceSpec, h1]
  · simp only [move_pos, reclaimAdvance, h1]
    split <;> rfl
  · simp only [move_pos, setsizeAdvance]
    split <;> rfl

/-- Witness for C2 at `p = 40`, `asize = 64`, `n = 20`. -/
theorem move_pos_is_the_wrap_rule_witness :
    (40 < 64) ∧
    (move_pos 40 64 20 = advanceSpec 40 64 20 ∧
     (reclaimAdvance 64 40 20).1 = move_pos 40 64 20 ∧
     (setsizeAdvance 64 40 20).1 = move_pos 40 64 20) :=
  ⟨by decide, move_pos_is_the_wrap_rule 40 64 20 (by decide)⟩

/-- All-zero header array, used by concrete instances. -/
def hs0 : Headers := fun _ => Header.zero

/-- A ready, quiescent, non-shared 256-byte buffer state. -/
def stW : State := {
  ready := true, cancelled := false, pshared := false, stats := false,
  size := 256,
  read_pos := 0, write_pos := 0, read_next := 0, write_next := 0, read_first := 0,
  free_bytes := 240, read_packets := 0, written_packets := 0 }

/-- An open, unfrozen write handle at offset 0. -/
def pkW : Packet := {
  write := true, read := false, isTry := false, sizeSet := false,
  buffer_pos := 0, pos := 0, reserved := 0, fakeDma := [] }

/-- C10: on the non-shared path without the READY attribute flag,
`ps_buffer_init` leaves all five position indices at 0 (the state is
memset to zero), sets `free_bytes = size - headerSize`, both semaphore
counters at 0, and the READY flag. -/
theorem ps_buffer_init_spec (S : Nat) (cancelled pshared stats : Bool) :
    ∃ st, ps_buffer_init S false cancelled pshared stats = some st ∧
      st.read_pos = 0 ∧ st.write_pos = 0 ∧ st.read_next = 0 ∧
      st.write_next = 0 ∧ st.read_first = 0 ∧
      st.free_bytes = (S : Int) - (headerSize : Int) ∧
      st.read_packets = 0 ∧ st.written_packets = 0 ∧ st.ready = true :=
  ⟨_, rfl, rfl, rfl, rfl, rfl, rfl, rfl, rfl, rfl, rfl⟩

/-- C8: on an open handle of a ready, non-cancelled buffer,
`ps_packet_tell` returns the payload cursor `packet->pos` as its status
code, and (unconditionally) never writes through its out parameter. -/
theorem ps_packet_tell_spec (s : State) (pk : Packet) (out : Nat)
    (hopen : pk.read = true ∨ pk.write = true)
    (hready : s.ready = true) (hcanc : s.cancelled = false) :
    ps_packet_tell s pk out = (pk.pos, out) ∧
    ∀ s2 pk2 o, (ps_packet_tell s2 pk2 o).2 = o := by
  constructor
  · have hc : ps_packet_check s pk = 0 := by
      simp [ps_packet_check, ps_buffer_check, hready, hcanc]
      rcases hopen with h | h <;> simp [h]
    simp [ps_packet_tell, hc]
  · intro s2 pk2 o
    simp only [ps_packet_tell]
    split <;> rfl

/-- Witness for C8 on `stW` / `pkW` with out parameter 5. -/
theorem ps_packet_tell_spec_witness :
    (pkW.read = true ∨ pkW.write = true) ∧ stW.ready = true ∧ stW.cancelled = false ∧
    (ps_packet_tell stW pkW 5 = (pkW.pos, 5) ∧
     ∀ s2 pk2 o, (ps_packet_tell s2 pk2 o).2 = o) :=
  ⟨Or.inr rfl, rfl, rfl, ps_packet_tell_spec stW pkW 5 (Or.inr rfl) rfl rfl⟩

/-- After `ps_packet_fakedma_freeall` every staging entry is free. -/
theorem fakedma_freeall_all_free (l : List FakeDma) :
    ∀ d ∈ ps_packet_fakedma_freeall l, d.free = true := by
  intro d hd
  simp only [ps_packet_fakedma_freeall, List.mem_map] at hd
  obtain ⟨e, _, rfl⟩ := hd
  by_cases h : e.free <;> simp [h]

/-- C9: on a ready, non-cancelled buffer, `ps_packet_cancel` returns
EINVAL unless the handle is a write packet whose size is not set; when
the precondition holds it refunds `reserved` to `free_bytes`, zeroes the
packet's header, marks every fake-DMA entry free, and leaves all five
position indices unchanged. -/
theorem ps_packet_cancel_spec (hs : Headers) (s : State) (pk : Packet)
    (hready : s.ready = true) (hcanc : s.cancelled = false) :
    (¬(pk.write = true ∧ pk.sizeSet = false) →
        ps_packet_cancel hs s pk = (EINVAL, s, hs, pk)) ∧
    (pk.write = true ∧ pk.sizeSet = false →
      ∃ s' hs' pk',
        ps_packet_cancel hs s pk = (0, s', hs', pk') ∧
        s'.free_bytes = s.free_bytes + (pk.reserved : Int) ∧
        hs' pk.buffer_pos = Header.zero ∧
        (∀ q, q ≠ pk.buffer_pos → hs' q = hs q) ∧
        (∀ d ∈ pk'.fakeDma, d.free = true) ∧
        s'.read_pos = s.read_pos ∧ s'.write_pos = s.write_pos ∧
        s'.read_next = s.read_next ∧ s'.write_next = s.write_next ∧
        s'.read_first = s.read_first) := by
  constructor
  · intro hnot
    by_cases hw : pk.write = true
    · have hss : pk.sizeSet = true := by
        cases h : pk.sizeSet
        · exact absurd ⟨hw, h⟩ hnot
        · rfl
      have hc : ps_packet_check s pk = 0 := by
        simp [ps_packet_check, ps_buffer_check, hready, hcanc, hw]
      simp [ps_packet_cancel, hc, hw, hss]
    · have hw' : pk.write = false := by
        cases h : pk.write
        · rfl
        · exact absurd h hw
      by_cases hr : pk.read = true
      · have hc : ps_packet_check s pk = 0 := by
          simp [ps_packet_check, ps_buffer_check, hready, hcanc, hr]
        simp [ps_packet_cancel, hc, hw']
      · have hr' : pk.read = false := by
          cases h : pk.read
          · rfl
          · exact absurd h hr
        have hc : ps_packet_check s pk = EINVAL := by
          simp [ps_packet_check, hr', hw']
        simp [ps_packet_cancel, hc, EINVAL]
  · rintro ⟨hw, hss⟩
    have hc : ps_packet_check s pk = 0 := by
      simp [ps_packet_check, ps_buffer_check, hready, hcanc, hw]
    simp only [ps_packet_cancel, hc, hw, hss, ne_eq, not_true_eq_false, not_false_eq_true,
      if_false, if_true, Bool.true_eq_false, ite_false, ite_true]
    refine ⟨_, _, _, rfl, rfl, ?_, ?_, fakedma_freeall_all_free _, rfl, rfl, rfl, rfl, rfl⟩
    · simp [setHeader]
    · intro q hq
      simp [setHeader, hq]

/-- The buffer-state fields never written by `ps_packet_reserve`. -/
def ReserveCore (s s' : State) : Prop :=
  s'.size = s.size ∧ s'.ready = s.ready ∧ s'.cancelled = s.cancelled ∧
  s'.pshared = s.pshared ∧ s'.stats = s.stats ∧
  s'.read_pos = s.read_pos ∧ s'.write_pos = s.write_pos ∧
  s'.read_next = s.read_next ∧ s'.write_next = s.write_next ∧
  s'.written_packets = s.written_packets

theorem ReserveCore.refl' (s : State) : ReserveCore s s := by
  simp [ReserveCore]

theorem ReserveCore.trans' {s t u : State} (h1 : ReserveCore s t) (h2 : ReserveCore t u) :
    ReserveCore s u := by
  obtain ⟨a1, a2, a3, a4, a5, a6, a7, a8, a9, a10⟩ := h1
  obtain ⟨b1, b2, b3, b4, b5, b6, b7, b8, b9, b10⟩ := h2
  exact ⟨b1.trans a1, b2.trans a2, b3.trans a3, b4.trans a4, b5.trans a5,
         b6.trans a6, b7.trans a7, b8.trans a8, b9.trans a9, b10.trans a10⟩

theorem ReserveCore.read_packets_update (s : State) (n : Nat) :
    ReserveCore s { s with read_packets := n } := by
  simp [ReserveCore]

theorem reclaimOne_core (hs : Headers) (s : State) : ReserveCore s (reclaimOne hs s) := by
  simp [ReserveCore, reclaimOne]

theorem reclaimLoop_core (hs : Headers) :
    ∀ fuel s c s', reclaimLoop hs fuel s = some (c, s') → ReserveCore s s' := by
  intro fuel
  induction fuel with
  | zero => intro s c s' h; simp [reclaimLoop] at h
  | succ n ih =>
    intro s c s' h
    simp only [reclaimLoop] at h
    split at h
    · simp only [Option.some.injEq, Prod.mk.injEq] at h
      exact h.2 ▸ reclaimOne_core hs s
    · split at h
      · simp only [Option.some.injEq, Prod.mk.injEq] at h
        exact h.2 ▸ reclaimOne_core hs s
      · exact ReserveCore.trans'
          (ReserveCore.trans' (reclaimOne_core hs s) (ReserveCore.read_packets_update _ _))
          (ih _ _ _ h)

theorem reclaimLoop_code (hs : Headers) :
    ∀ fuel s c s', reclaimLoop hs fuel s = some (c, s') → c = 0 ∨ c = EINTR := by
  intro fuel
  induction fuel with
  | zero => intro s c s' h; simp [reclaimLoop] at h
  | succ n ih =>
    intro s c s' h
    simp only [reclaimLoop] at h
    split at h
    · simp only [Option.some.injEq, Prod.mk.injEq] at h
      exact Or.inr h.1.symm
    · split at h
      · simp only [Option.some.injEq, Prod.mk.injEq] at h
        exact Or.inl h.1.symm
      · exact ih _ _ _ h

theorem reserveLoop_core (hs : Headers) (delta : Nat) (b : Bool) :
    ∀ fuel s c s', reserveLoop hs delta b fuel s = some (c, s') → ReserveCore s s' := by
  intro fuel
  induction fuel with
  | zero => intro s c s' h; simp [reserveLoop] at h
  | succ n ih =>
    intro s c s' h
    simp only [reserveLoop] at h
    split at h
    · simp only [Option.some.injEq, Prod.mk.injEq] at h
      exact h.2 ▸ ReserveCore.refl' s
    · split at h
      · split at h
        · simp only [Option.some.injEq, Prod.mk.injEq] at h
          rw [← h.2]
          simp [ReserveCore]
        · exact Option.noConfusion h
      · split at h
        · exact Option.noConfusion h
        · rename_i c1 s1 heq
          have step : ReserveCore s s1 :=
            ReserveCore.trans' (ReserveCore.read_packets_update _ _)
              (reclaimLoop_core hs _ _ _ _ heq)
          split at h
          · exact ReserveCore.trans' step (ih _ _ _ h)
          · simp only [Option.some.injEq, Prod.mk.injEq] at h
            exact h.2 ▸ step

theorem reserveLoop_code (hs : Headers) (delta : Nat) (b : Bool) :
    ∀ fuel s c s', reserveLoop hs delta b fuel s = some (c, s') →
      c = 0 ∨ c = EBUSY ∨ c = EINTR := by
  intro fuel
  induction fuel with
  | zero => intro s c s' h; simp [reserveLoop] at h
  | succ n ih =>
    intro s c s' h
    simp only [reserveLoop] at h
    split at h
    · simp only [Option.some.injEq, Prod.mk.injEq] at h
      exact Or.inl h.1.symm
    · split at h
      · split at h
        · simp only [Option.some.injEq, Prod.mk.injEq] at h
          exact Or.inr (Or.inl h.1.symm)
        · exact Option.noConfusion h
      · split at h
        · exact Option.noConfusion h
        · rename_i c1 s1 heq
          split at h
          · exact ih _ _ _ h
          · simp only [Option.some.injEq, Prod.mk.injEq] at h
            rcases reclaimLoop_code hs _ _ _ _ heq with h0 | hi
            · rename_i hne; exact absurd h0 hne
            · exact Or.inr (Or.inr (by rw [← h.1, hi]))

theorem ps_packet_reserve_code (hs : Headers) (s : State) (pk : Packet) (len fuel : Nat)
    (r : Nat) (s' : State) (pk' : Packet)
    (h : ps_packet_reserve hs s pk len fuel = some (r, s', pk')) :
    r = 0 ∨ r = EBUSY ∨ r = EINTR := by
  simp only [ps_packet_reserve] at h
  split at h
  · simp only [Option.some.injEq, Prod.mk.injEq] at h
    exact Or.inl h.1.symm
  · split at h
    · exact Option.noConfusion h
    · rename_i c1 s1 heq
      split at h
      · simp only [Option.some.injEq, Prod.mk.injEq] at h
        exact Or.inl h.1.symm
      · simp only [Option.some.injEq, Prod.mk.injEq] at h
        rcases reserveLoop_code hs _ _ _ _ _ _ heq with h0 | hbusy
        · rename_i hne; exact absurd h0 hne
        · rw [← h.1]
          exact Or.inr hbusy

theorem ps_packet_reserve_core (hs : Headers) (s : State) (pk : Packet) (len fuel : Nat)
    (r : Nat) (s' : State) (pk' : Packet)
    (h : ps_packet_reserve hs s pk len fuel = some (r, s', pk')) :
    ReserveCore s s' ∧
    (pk' = pk ∨ pk' = { pk with reserved := len }) ∧
    (r = 0 → len ≤ pk'.reserved) := by
  simp only [ps_packet_reserve] at h
  split at h
  · simp only [Option.some.injEq, Prod.mk.injEq] at h
    obtain ⟨h1, h2, h3⟩ := h
    subst h2; subst h3
    refine ⟨ReserveCore.refl' s, Or.inl rfl, fun _ => ?_⟩
    assumption
  · split at h
    · exact Option.noConfusion h
    · rename_i hgt c1 s1 heq
      have core : ReserveCore s s1 :=
        ReserveCore.trans'
          (by simp [ReserveCore] : ReserveCore s { s with free_bytes := s.free_bytes - (len - pk.reserved : Nat) })
          (reserveLoop_core hs _ _ _ _ _ _ heq)
      split at h
      · simp only [Option.some.injEq, Prod.mk.injEq] at h
        obtain ⟨h1, h2, h3⟩ := h
        subst h2; subst h3
        exact ⟨core, Or.inr rfl, fun _ => le_refl _⟩
      · simp only [Option.some.injEq, Prod.mk.injEq] at h
        obtain ⟨h1, h2, h3⟩ := h
        subst h2; subst h3
        refine ⟨core, Or.inl rfl, fun h0 => absurd h1 ?_⟩
        rename_i hne
        rw [h0]
        exact hne

/-- C4: on a ready, non-cancelled buffer, `ps_packet_setsize n` fails
EINVAL when the handle is not a write packet or its size is already
frozen, fails ENOBUFS exactly when `n + 2*headerSize > arenaSize` (so the
equality case passes the capacity check), and in these contract-violation
cases returns immediately with the buffer state, headers and handle
unchanged. -/
theorem ps_packet_setsize_contract (hs : Headers) (s : State) (pk : Packet) (n fuel : Nat)
    (hready : s.ready = true) (hcanc : s.cancelled = false) :
    ((pk.write = false ∨ pk.sizeSet = true) →
        ps_packet_setsize hs s pk n fuel = some (EINVAL, s, hs, pk)) ∧
    (pk.write = true → pk.sizeSet = false → n + 2 * headerSize > s.size →
        ps_packet_setsize hs s pk n fuel = some (ENOBUFS, s, hs, pk)) ∧
    (∀ r s' hs' pk', ps_packet_setsize hs s pk n fuel = some (r, s', hs', pk') →
        (r = ENOBUFS ↔ pk.write = true ∧ pk.sizeSet = false ∧ n + 2 * headerSize > s.size)) := by
  have hbc : ps_buffer_check s = 0 := by simp [ps_buffer_check, hready, hcanc]
  have part1 : (pk.write = false ∨ pk.sizeSet = true) →
      ps_packet_setsize hs s pk n fuel = some (EINVAL, s, hs, pk) := by
    intro hinv
    by_cases hro : pk.read = true ∨ pk.write = true
    · have hc : ps_packet_check s pk = 0 := by
        simp only [ps_packet_check, hbc]
        rw [if_neg]
        push_neg
        rcases hro with h | h
        · exact Or.inl (by simp [h])
        · exact Or.inr (by simp [h])
      have hcond : (¬(pk.write = true) ∨ pk.sizeSet = true) := by
        rcases hinv with h | h
        · exact Or.inl (by simp [h])
        · exact Or.inr h
      simp only [ps_packet_setsize, hc, ne_eq, not_true_eq_false]
      rw [if_neg (by simp)]
      rw [if_pos (by simpa using hcond)]
    · push_neg at hro
      have hc : ps_packet_check s pk = EINVAL := by
        simp [ps_packet_check, hro.1, hro.2]
      simp only [ps_packet_setsize, hc]
      rw [if_pos (by simp [EINVAL])]
  have part2 : pk.write = true → pk.sizeSet = false → n + 2 * headerSize > s.size →
      ps_packet_setsize hs s pk n fuel = some (ENOBUFS, s, hs, pk) := by
    intro hw hss hcap
    have hc : ps_packet_check s pk = 0 := by
      simp [ps_packet_check, hbc, hw]
    simp only [ps_packet_setsize, hc]
    rw [if_neg (by simp)]
    rw [if_neg (by simp [hw, hss])]
    rw [if_pos (by omega)]
  refine ⟨part1, part2, ?_⟩
  intro r s' hs' pk' heq
  constructor
  · intro hr
    subst hr
    by_cases hw : pk.write = true
    · by_cases hss : pk.sizeSet = true
      · rw [part1 (Or.inr hss)] at heq
        simp only [Option.some.injEq, Prod.mk.injEq] at heq
        exact absurd heq.1.symm (by decide)
      · have hss' : pk.sizeSet = false := by
          cases h : pk.sizeSet
          · rfl
          · exact absurd h hss
        by_cases hcap : n + 2 * headerSize > s.size
        · exact ⟨hw, hss', hcap⟩
        · exfalso
          have hc : ps_packet_check s pk = 0 := by
            simp [ps_packet_check, hbc, hw]
          simp only [ps_packet_setsize, hc] at heq
          rw [if_neg (by simp)] at heq
          rw [if_neg (by simp [hw, hss'])] at heq
          rw [if_neg (by omega)] at heq
          split at heq
          · exact Option.noConfusion heq
          · rename_i r1 s1 pk1 heq1
            split at heq
            · simp only [Option.some.injEq, Prod.mk.injEq] at heq
              rcases ps_packet_reserve_code hs s pk n fuel r1 s1 pk1 heq1 with h0 | hb | hi
              · rename_i hne; exact absurd h0 hne
              · exact absurd (heq.1.symm.trans hb) (by decide)
              · exact absurd (heq.1.symm.trans hi) (by decide)
            · split at heq
              · exact Option.noConfusion heq
              · rename_i r2 s2 pk3 heq2
                split at heq
                · simp only [Option.some.injEq, Prod.mk.injEq] at heq
                  rcases ps_packet_reserve_code hs s1 _ _ fuel r2 s2 pk3 heq2 with h0 | hb | hi
                  · rename_i hne; exact absurd h0 hne
                  · exact absurd (heq.1.symm.trans hb) (by decide)
                  · exact absurd (heq.1.symm.trans hi) (by decide)
                · simp only [Option.some.injEq, Prod.mk.injEq] at heq
                  exact absurd heq.1.symm (by decide)
    · have hw' : pk.write = false := by
        cases h : pk.write
        · rfl
        · exact absurd h hw
      rw [part1 (Or.inl hw')] at heq
      simp only [Option.some.injEq, Prod.mk.injEq] at heq
      exact absurd heq.1.symm (by decide)
  · rintro ⟨hw, hss, hcap⟩
    rw [part2 hw hss hcap] at heq
    simp only [Option.some.injEq, Prod.mk.injEq] at heq
    exact heq.1.symm

/-- Witness for C4: `pkW` frozen to size-set on `stW` gives EINVAL, and
the capacity characterization at `n = 300` on the 256-byte arena. -/
theorem ps_packet_setsize_contract_witness :
    stW.ready = true ∧ stW.cancelled = false ∧
    (((pkW.write = false ∨ pkW.sizeSet = true) →
        ps_packet_setsize hs0 stW pkW 300 3 = some (EINVAL, stW, hs0, pkW)) ∧
     (pkW.write = true → pkW.sizeSet = false → 300 + 2 * headerSize > stW.size →
        ps_packet_setsize hs0 stW pkW 300 3 = some (ENOBUFS, stW, hs0, pkW)) ∧
     (∀ r s' hs' pk', ps_packet_setsize hs0 stW pkW 300 3 = some (r, s', hs', pk') →
        (r = ENOBUFS ↔ pkW.write = true ∧ pkW.sizeSet = false ∧
          300 + 2 * headerSize > stW.size))) :=
  ⟨rfl, rfl, ps_packet_setsize_contract hs0 stW pkW 300 3 rfl rfl⟩

/-- C6 counterexample: seeking to 230 on the unfrozen write packet `pkW`
in the 256-byte buffer `stW` satisfies `230 + 2*headerSize > arenaSize`,
where the claim predicts an ENOBUFS failure, yet the call succeeds with
status 0 (the code checks `pos + headerSize > size`, and with EINVAL). -/
theorem ps_packet_seek_claim_counterexample :
    230 + 2 * headerSize > stW.size ∧
    (ps_packet_seek hs0 stW pkW 230 3).map (fun x => x.1) = some 0 ∧
    (0 : Nat) ≠ ENOBUFS := by
  refine ⟨by decide, by decide, by decide⟩

/-- C6 amended: `ps_packet_seek` on an unfrozen write packet fails
exactly when `pos + headerSize > arenaSize` — one header slot, not the
two of `ps_packet_write`'s bound — and with EINVAL, not the NOBUFS that
write returns; otherwise it reserves `pos` bytes before moving the
cursor.  For a frozen-size or read packet, seeking past `header->size`
fails EINVAL.  (Ready, non-cancelled buffer.) -/
theorem ps_packet_seek_spec (hs : Headers) (s : State) (pk : Packet) (pos fuel : Nat)
    (hready : s.ready = true) (hcanc : s.cancelled = false) :
    (pk.write = true → pk.sizeSet = false → pk.read = false →
      pos + headerSize > s.size →
        ps_packet_seek hs s pk pos fuel = some (EINVAL, s, hs, pk)) ∧
    (pk.write = true → pk.sizeSet = false → pk.read = false →
      pos + headerSize ≤ s.size →
        ∀ r s' hs' pk', ps_packet_seek hs s pk pos fuel = some (r, s', hs', pk') →
          r ≠ EINVAL ∧ r ≠ ENOBUFS ∧
          (r = 0 → pk'.pos = pos ∧ pos ≤ pk'.reserved)) ∧
    ((pk.sizeSet = true ∨ pk.read = true) → (pk.read = true ∨ pk.write = true) →
      pos > (hs pk.buffer_pos).size →
        ps_packet_seek hs s pk pos fuel = some (EINVAL, s, hs, pk)) := by
  have hbc : ps_buffer_check s = 0 := by simp [ps_buffer_check, hready, hcanc]
  refine ⟨?_, ?_, ?_⟩
  · intro hw hss hr hbig
    have hc : ps_packet_check s pk = 0 := by
      simp [ps_packet_check, hbc, hw]
    simp only [ps_packet_seek, hc]
    rw [if_neg (by simp)]
    rw [if_neg (by simp [hss, hr])]
    rw [if_pos (by simp [hss, hw])]
    rw [if_pos hbig]
  · intro hw hss hr hfit r s' hs' pk' heq
    have hc : ps_packet_check s pk = 0 := by
      simp [ps_packet_check, hbc, hw]
    simp only [ps_packet_seek, hc] at heq
    rw [if_neg (by simp)] at heq
    rw [if_neg (by simp [hss, hr])] at heq
    rw [if_pos (by simp [hss, hw])] at heq
    rw [if_neg (by omega)] at heq
    split at heq
    · exact Option.noConfusion heq
    · rename_i r1 s1 pk1 heq1
      have hcode := ps_packet_reserve_code hs s pk pos fuel r1 s1 pk1 heq1
      have hcore := ps_packet_reserve_core hs s pk pos fuel r1 s1 pk1 heq1
      split at heq
      · simp only [Option.some.injEq, Prod.mk.injEq] at heq
        rename_i hne
        rcases hcode with h0 | hb | hi
        · exact absurd h0 hne
        · refine ⟨?_, ?_, ?_⟩
          · rw [← heq.1, hb]; decide
          · rw [← heq.1, hb]; decide
          · intro h0; rw [← heq.1, hb] at h0; exact absurd h0 (by decide)
        · refine ⟨?_, ?_, ?_⟩
          · rw [← heq.1, hi]; decide
          · rw [← heq.1, hi]; decide
          · intro h0; rw [← heq.1, hi] at h0; exact absurd h0 (by decide)
      · rename_i hr1
        have hr0 : r1 = 0 := by
          by_contra hcon
          exact hr1 (by simpa using hcon)
        simp only [seekFinish, Option.some.injEq, Prod.mk.injEq] at heq
        obtain ⟨e1, e2, e3, e4⟩ := heq
        refine ⟨by rw [← e1]; decide, by rw [← e1]; decide, fun _ => ?_⟩
        constructor
        · rw [← e4]
        · rw [← e4]
          exact hcore.2.2 hr0
  · intro hfrozen hopen hbig
    have hc : ps_packet_check s pk = 0 := by
      simp only [ps_packet_check, hbc]
      rw [if_neg]
      push_neg
      rcases hopen with h | h
      · exact Or.inl (by simp [h])
      · exact Or.inr (by simp [h])
    simp only [ps_packet_seek, hc]
    rw [if_neg (by simp)]
    rw [if_pos ?_]
    rcases hfrozen with h | h
    · exact ⟨by simp [h], hbig⟩
    · exact ⟨by simp [h], hbig⟩

/-- Witness for C6's amended theorem at `pos = 100` on `stW` / `pkW`. -/
theorem ps_packet_seek_spec_witness :
    stW.ready = true ∧ stW.cancelled = false ∧
    ((pkW.write = true → pkW.sizeSet = false → pkW.read = false →
      100 + headerSize > stW.size →
        ps_packet_seek hs0 stW pkW 100 3 = some (EINVAL, stW, hs0, pkW)) ∧
     (pkW.write = true → pkW.sizeSet = false → pkW.read = false →
      100 + headerSize ≤ stW.size →
        ∀ r s' hs' pk', ps_packet_seek hs0 stW pkW 100 3 = some (r, s', hs', pk') →
          r ≠ EINVAL ∧ r ≠ ENOBUFS ∧
          (r = 0 → pk'.pos = 100 ∧ 100 ≤ pk'.reserved)) ∧
     ((pkW.sizeSet = true ∨ pkW.read = true) → (pkW.read = true ∨ pkW.write = true) →
      100 > (hs0 pkW.buffer_pos).size →
        ps_packet_seek hs0 stW pkW 100 3 = some (EINVAL, stW, hs0, pkW))) :=
  ⟨rfl, rfl, ps_packet_seek_spec hs0 stW pkW 100 3 rfl rfl⟩

theorem chainPos_congr (h1 h2 : Headers) (sz : Nat)
    (hsz : ∀ x, (h1 x).size = (h2 x).size) :
    ∀ k p, chainPos h1 sz p k = chainPos h2 sz p k := by
  intro k
  induction k with
  | zero => intro p; rfl
  | succ n ih =>
    intro p
    simp only [chainPos]
    rw [hsz p]
    exact ih _

theorem drainLoop_read_mono :
    ∀ n hs s res x, (hs x).read = true → ((drainLoop n hs s res).1 x).read = true := by
  intro n
  induction n with
  | zero => intro hs s res x hx; exact hx
  | succ m ih =>
    intro hs s res x hx
    simp only [drainLoop]
    split
    · apply ih
      simp only [setHeader]
      split
      · rfl
      · exact hx
    · apply ih
      simp only [setHeader]
      split
      · rfl
      · exact hx

theorem drainLoop_size_eq :
    ∀ n hs s res x, ((drainLoop n hs s res).1 x).size = (hs x).size := by
  intro n
  induction n with
  | zero => intro hs s res x; rfl
  | succ m ih =>
    intro hs s res x
    simp only [drainLoop]
    split
    · rw [ih]
      simp only [setHeader]
      split
      · rename_i hxe; rw [hxe]
      · rfl
    · rw [ih]
      simp only [setHeader]
      split
      · rename_i hxe; rw [hxe]
      · rfl

theorem drainLoop_spec :
    ∀ n hs s res, s.written_packets = n →
      (drainLoop n hs s res).2.1.read_next = chainPos hs s.size s.read_next n ∧
      (∀ i < n, ((drainLoop n hs s res).1 (chainPos hs s.size s.read_next i)).read = true) ∧
      (drainLoop n hs s res).2.1.written_packets = 0 ∧
      (drainLoop n hs s res).2.1.read_packets + res =
        s.read_packets + (drainLoop n hs s res).2.2 ∧
      (s.read_pos = s.read_next →
        (drainLoop n hs s res).2.2 = res + n ∧
        (drainLoop n hs s res).2.1.read_pos = chainPos hs s.size s.read_next n) := by
  intro n
  induction n with
  | zero =>
    intro hs s res hw
    refine ⟨rfl, by omega, hw, rfl, fun hpr => ⟨rfl, hpr⟩⟩
  | succ m ih =>
    intro hs s res hw
    have hszeq : ∀ x, ((setHeader hs s.read_next
        { hs s.read_next with read := true }) x).size = (hs x).size := by
      intro x
      simp only [setHeader]
      split
      · rename_i hxe; rw [hxe]
      · rfl
    by_cases hrp : s.read_pos = s.read_next
    · have hstep : drainLoop (m + 1) hs s res =
          drainLoop m (setHeader hs s.read_next { hs s.read_next with read := true })
            { s with
              read_next := move_pos s.read_next s.size (hs s.read_next).size,
              read_pos := move_pos s.read_next s.size (hs s.read_next).size,
              read_packets := s.read_packets + 1, written_packets := m } (res + 1) := by
        simp only [drainLoop]
        rw [if_pos hrp]
      obtain ⟨ih1, ih2, ih3, ih4, ih5⟩ := ih
        (setHeader hs s.read_next { hs s.read_next with read := true })
        { s with
          read_next := move_pos s.read_next s.size (hs s.read_next).size,
          read_pos := move_pos s.read_next s.size (hs s.read_next).size,
          read_packets := s.read_packets + 1, written_packets := m } (res + 1) rfl
      have hchain : ∀ j, chainPos
          (setHeader hs s.read_next { hs s.read_next with read := true }) s.size
          (move_pos s.read_next s.size (hs s.read_next).size) j =
          chainPos hs s.size s.read_next (j + 1) := by
        intro j
        rw [chainPos_congr _ hs s.size hszeq]
        rfl
      rw [hstep]
      refine ⟨?_, ?_, ih3,
        (by
          have h4 := ih4
          change _ + (res + 1) = s.read_packets + 1 + _ at h4
          omega), fun _ => ⟨?_, ?_⟩⟩
      · rw [ih1]
        exact hchain m
      · intro i hi
        cases i with
        | zero =>
          apply drainLoop_read_mono
          simp [setHeader, chainPos]
        | succ j =>
          have hj : j < m := by omega
          have := ih2 j hj
          rwa [hchain j] at this
      · have := (ih5 rfl).1
        omega
      · rw [(ih5 rfl).2]
        exact hchain m
    · have hstep : drainLoop (m + 1) hs s res =
          drainLoop m (setHeader hs s.read_next { hs s.read_next with read := true })
            { s with
              read_next := move_pos s.read_next s.size (hs s.read_next).size,
              written_packets := m } res := by
        simp only [drainLoop]
        rw [if_neg hrp]
      obtain ⟨ih1, ih2, ih3, ih4, ih5⟩ := ih
        (setHeader hs s.read_next { hs s.read_next with read := true })
        { s with
          read_next := move_pos s.read_next s.size (hs s.read_next).size,
          written_packets := m } res rfl
      have hchain : ∀ j, chainPos
          (setHeader hs s.read_next { hs s.read_next with read := true }) s.size
          (move_pos s.read_next s.size (hs s.read_next).size) j =
          chainPos hs s.size s.read_next (j + 1) := by
        intro j
        rw [chainPos_congr _ hs s.size hszeq]
        rfl
      rw [hstep]
      refine ⟨?_, ?_, ih3,
        (by
          have h4 := ih4
          change _ + res = s.read_packets + _ at h4
          omega), fun hcontra => absurd hcontra hrp⟩
      · rw [ih1]
        exact hchain m
      · intro i hi
        cases i with
        | zero =>
          apply drainLoop_read_mono
          simp [setHeader, chainPos]
        | succ j =>
          have hj : j < m := by omega
          have := ih2 j hj
          rwa [hchain j] at this

/-- C7: `ps_buffer_drain` consumes every `written_packets` token; per
token it marks the header at `read_next` READ and advances `read_next`
past it by the wrap rule; when the drained packet sat at `read_pos` it
posts `read_packets` once per such packet and carries `read_pos` along;
the return value counts exactly the packets drained at `read_pos` (all
of them when `read_pos = read_next` at entry). -/
theorem ps_buffer_drain_spec (hs : Headers) (s : State) :
    ∀ hs' s' res, ps_buffer_drain hs s = (hs', s', res) →
      s'.read_next = chainPos hs s.size s.read_next s.written_packets ∧
      (∀ i < s.written_packets, (hs' (chainPos hs s.size s.read_next i)).read = true) ∧
      s'.written_packets = 0 ∧
      s'.read_packets = s.read_packets + res ∧
      (s.read_pos = s.read_next →
        res = s.written_packets ∧
        s'.read_pos = chainPos hs s.size s.read_next s.written_packets) := by
  intro hs' s' res h
  obtain ⟨h1, h2, h3, h4, h5⟩ := drainLoop_spec s.written_packets hs s 0 rfl
  unfold ps_buffer_drain at h
  rw [h] at h1 h2 h3 h4 h5
  simp only at h1 h2 h3 h4 h5
  exact ⟨h1, h2, h3, by omega, fun ha => ⟨by simpa using (h5 ha).1, (h5 ha).2⟩⟩

/-- Headers for the drain witness: WRITTEN packets at 0 (80 bytes) and
96 (40 bytes). -/
def hsD : Headers := fun p =>
  if p = 0 then ⟨true, false, 80⟩
  else if p = 96 then ⟨true, false, 40⟩
  else Header.zero

/-- Buffer state for the drain witness: two committed unread packets. -/
def stD : State := {
  ready := true, cancelled := false, pshared := false, stats := false,
  size := 256,
  read_pos := 0, write_pos := 152, read_next := 0, write_next := 152, read_first := 0,
  free_bytes := 88, read_packets := 0, written_packets := 2 }

/-- Witness for C7 on `hsD` / `stD` (two packets, both drained). -/
theorem ps_buffer_drain_spec_witness :
    (ps_buffer_drain hsD stD = ((ps_buffer_drain hsD stD).1,
      (ps_buffer_drain hsD stD).2.1, (ps_buffer_drain hsD stD).2.2)) ∧
    ((ps_buffer_drain hsD stD).2.1.read_next =
        chainPos hsD stD.size stD.read_next stD.written_packets ∧
     (∀ i < stD.written_packets,
        ((ps_buffer_drain hsD stD).1 (chainPos hsD stD.size stD.read_next i)).read = true) ∧
     (ps_buffer_drain hsD stD).2.1.written_packets = 0 ∧
     (ps_buffer_drain hsD stD).2.1.read_packets =
        stD.read_packets + (ps_buffer_drain hsD stD).2.2 ∧
     (stD.read_pos = stD.read_next →
        (ps_buffer_drain hsD stD).2.2 = stD.written_packets ∧
        (ps_buffer_drain hsD stD).2.1.read_pos =
          chainPos hsD stD.size stD.read_next stD.written_packets)) :=
  ⟨rfl, ps_buffer_drain_spec hsD stD _ _ _ rfl⟩

theorem reclaimChain_pos_add (hs : Headers) (sz : Nat) :
    ∀ j rf k, (reclaimChain hs sz rf (j + k)).1 =
      (reclaimChain hs sz (reclaimChain hs sz rf j).1 k).1 := by
  intro j
  induction j with
  | zero =>
    intro rf k
    rw [Nat.zero_add]
    rfl
  | succ m ih =>
    intro rf k
    have h1 : m + 1 + k = (m + k) + 1 := by omega
    rw [h1]
    simp only [reclaimChain]
    exact ih _ _

theorem reclaimChain_credit_add (hs : Headers) (sz : Nat) :
    ∀ j rf k, (reclaimChain hs sz rf (j + k)).2 =
      (reclaimChain hs sz rf j).2 + (reclaimChain hs sz (reclaimChain hs sz rf j).1 k).2 := by
  intro j
  induction j with
  | zero =>
    intro rf k
    rw [Nat.zero_add]
    simp [reclaimChain]
  | succ m ih =>
    intro rf k
    have h1 : m + 1 + k = (m + k) + 1 := by omega
    rw [h1]
    simp only [reclaimChain]
    rw [ih _ _]
    omega

theorem reclaimOne_chain (hs : Headers) (t : State) :
    (reclaimOne hs t).read_first = (reclaimChain hs t.size t.read_first 1).1 ∧
    (reclaimOne hs t).free_bytes =
      t.free_bytes + ((reclaimChain hs t.size t.read_first 1).2 : Int) := by
  constructor
  · simp [reclaimOne, reclaimChain]
  · simp only [reclaimOne, reclaimChain]
    push_cast
    ring

theorem reclaimLoop_chain (hs : Headers) :
    ∀ fuel t c s1, reclaimLoop hs fuel t = some (c, s1) →
      ∃ j, s1.read_first = (reclaimChain hs t.size t.read_first j).1 ∧
           s1.free_bytes = t.free_bytes + ((reclaimChain hs t.size t.read_first j).2 : Int) := by
  intro fuel
  induction fuel with
  | zero => intro t c s1 h; simp [reclaimLoop] at h
  | succ n ih =>
    intro t c s1 h
    obtain ⟨hone1, hone2⟩ := reclaimOne_chain hs t
    simp only [reclaimLoop] at h
    split at h
    · simp only [Option.some.injEq, Prod.mk.injEq] at h
      exact ⟨1, h.2 ▸ hone1, h.2 ▸ hone2⟩
    · split at h
      · simp only [Option.some.injEq, Prod.mk.injEq] at h
        exact ⟨1, h.2 ▸ hone1, h.2 ▸ hone2⟩
      · obtain ⟨j, hj1, hj2⟩ := ih _ _ _ h
        have hsize : (reclaimOne hs t).size = t.size := rfl
        refine ⟨1 + j, ?_, ?_⟩
        · rw [reclaimChain_pos_add]
          rw [hj1]
          simp only [hsize]
          rw [hone1]
        · rw [reclaimChain_credit_add]
          have hj2' : s1.free_bytes = (reclaimOne hs t).free_bytes +
              ((reclaimChain hs t.size (reclaimOne hs t).read_first j).2 : Int) := by
            simpa using hj2
          rw [hj2', hone2, hone1]
          push_cast
          ring

theorem reserveLoop_busy (hs : Headers) (delta : Nat) :
    ∀ fuel s s', reserveLoop hs delta true fuel s = some (EBUSY, s') →
      ∃ k, s'.read_first = (reclaimChain hs s.size s.read_first k).1 ∧
           s'.free_bytes = s.free_bytes + (delta : Int) +
             ((reclaimChain hs s.size s.read_first k).2 : Int) := by
  intro fuel
  induction fuel with
  | zero => intro s s' h; simp [reserveLoop] at h
  | succ n ih =>
    intro s s' h
    simp only [reserveLoop] at h
    split at h
    · simp only [Option.some.injEq, Prod.mk.injEq] at h
      exact absurd h.1.symm (by decide)
    · split at h
      · simp only [if_true] at h
        simp only [Option.some.injEq, Prod.mk.injEq] at h
        refine ⟨0, ?_, ?_⟩
        · rw [← h.2]
          rfl
        · rw [← h.2]
          simp [reclaimChain]
      · split at h
        · exact Option.noConfusion h
        · rename_i c1 s1 heq
          have hcore : ReserveCore s s1 :=
            ReserveCore.trans' (ReserveCore.read_packets_update _ _)
              (reclaimLoop_core hs _ _ _ _ heq)
          obtain ⟨j, hj1, hj2⟩ := reclaimLoop_chain hs _ _ _ _ heq
          split at h
          · obtain ⟨k, hk1, hk2⟩ := ih _ _ h
            refine ⟨j + k, ?_, ?_⟩
            · rw [reclaimChain_pos_add]
              rw [hk1, hcore.1, hj1]
            · rw [reclaimChain_credit_add]
              rw [hk2, hcore.1, hj1, hj2]
              push_cast
              ring
          · simp only [Option.some.injEq, Prod.mk.injEq] at h
            rcases reclaimLoop_code hs _ _ _ _ heq with h0 | hi
            · rename_i hne; exact absurd h0 hne
            · rw [hi] at h
              exact absurd h.1.symm (by decide)

/-- C5: when a TRY-mode `ps_packet_reserve` asks for more than is
reserved and the non-blocking wait on `read_packets` fails, the call
returns EBUSY with `packet->reserved` unchanged, the speculative
deduction `len - reserved` restored, and any packets reclaimed in earlier
loop iterations still credited to `free_bytes` with `read_first` advanced
past them (`k` reclaim steps of the wrap rule). -/
theorem ps_packet_reserve_try_busy (hs : Headers) (s : State) (pk : Packet)
    (len fuel : Nat) (s' : State) (pk' : Packet)
    (htry : pk.isTry = true)
    (hres : ps_packet_reserve hs s pk len fuel = some (EBUSY, s', pk')) :
    pk' = pk ∧
    ∃ k, s'.read_first = (reclaimChain hs s.size s.read_first k).1 ∧
         s'.free_bytes = s.free_bytes +
           ((reclaimChain hs s.size s.read_first k).2 : Int) := by
  simp only [ps_packet_reserve] at hres
  split at hres
  · simp only [Option.some.injEq, Prod.mk.injEq] at hres
    exact absurd hres.1.symm (by decide)
  · split at hres
    · exact Option.noConfusion hres
    · rename_i c1 s1 heq
      rw [htry] at heq
      split at hres
      · simp only [Option.some.injEq, Prod.mk.injEq] at hres
        exact absurd hres.1.symm (by decide)
      · simp only [Option.some.injEq, Prod.mk.injEq] at hres
        obtain ⟨hc, hs1, hpk⟩ := hres
        rw [hc] at heq
        obtain ⟨k, hk1, hk2⟩ := reserveLoop_busy hs _ fuel _ _ heq
        have h1 : s1.read_first = (reclaimChain hs s.size s.read_first k).1 := hk1
        have h2 : s1.free_bytes = (s.free_bytes - ((len - pk.reserved : Nat) : Int)) +
            ((len - pk.reserved : Nat) : Int) +
            ((reclaimChain hs s.size s.read_first k).2 : Int) := hk2
        refine ⟨hpk.symm, k, ?_, ?_⟩
        · rw [← hs1]
          exact h1
        · rw [← hs1]
          omega

/-- Headers for the C5 witness: a released 80-byte packet at offset 0. -/
def hsB : Headers := fun p => if p = 0 then ⟨false, true, 80⟩ else Header.zero

/-- Buffer state for the C5 witness: one released packet pending reclaim
(`read_packets = 1`), 10 free bytes. -/
def stB : State := {
  ready := true, cancelled := false, pshared := false, stats := false,
  size := 256,
  read_pos := 96, write_pos := 96, read_next := 96, write_next := 96, read_first := 0,
  free_bytes := 10, read_packets := 1, written_packets := 0 }

/-- A TRY-mode write handle for the C5 witness. -/
def pkT : Packet := {
  write := true, read := false, isTry := true, sizeSet := false,
  buffer_pos := 96, pos := 0, reserved := 0, fakeDma := [] }

/-- The buffer state after the C5 witness run: released packet reclaimed
(`read_first` 0 → 96, 96 bytes credited), then EBUSY. -/
def stB2 : State := { stB with read_first := 96, free_bytes := 106, read_packets := 0 }

/-- Witness for C5: asking for 300 bytes reclaims the released packet
(96 bytes, `read_first` 0 → 96) and then fails EBUSY with
`free_bytes = 10 + 96` and the handle unchanged. -/
theorem ps_packet_reserve_try_busy_witness :
    pkT.isTry = true ∧
    ps_packet_reserve hsB stB pkT 300 5 = some (EBUSY, stB2, pkT) ∧
    (pkT = pkT ∧
     ∃ k, stB2.read_first = (reclaimChain hsB stB.size stB.read_first k).1 ∧
          stB2.free_bytes =
            stB.free_bytes + ((reclaimChain hsB stB.size stB.read_first k).2 : Int)) :=
  ⟨rfl, by decide,
   ps_packet_reserve_try_busy hsB stB pkT 300 5 stB2 pkT rfl (by decide)⟩

theorem memcpyTo_at (a : Arena) (offs : Nat) (src : List Nat) (i : Nat)
    (h : i < src.length) : memcpyTo a offs src (offs + i) = src.getD i 0 := by
  simp only [memcpyTo]
  rw [if_pos (by omega)]
  congr 1
  omega

theorem memcpyTo_ge (a : Arena) (offs : Nat) (src : List Nat) (i : Nat)
    (h : offs + src.length ≤ i) : memcpyTo a offs src i = a i := by
  simp only [memcpyTo]
  rw [if_neg (by omega)]

theorem readBytes_eq (a : Arena) (offs : Nat) (src : List Nat)
    (h : ∀ i, i < src.length → a (offs + i) = src.getD i 0) :
    readBytes a offs src.length = src := by
  apply List.ext_getElem
  · simp [readBytes]
  · intro i h1 h2
    simp only [readBytes, List.getElem_map, List.getElem_range]
    rw [h i h2]
    exact List.getD_eq_getElem src 0 h2

theorem copy_roundtrip_nowrap (a : Arena) (offs : Nat) (B : List Nat) :
    readBytes (memcpyTo a offs B) offs B.length = B := by
  apply readBytes_eq
  intro i hi
  exact memcpyTo_at a offs B i hi

theorem copy_roundtrip_wrap (a : Arena) (sz offs : Nat) (B : List Nat)
    (hoffs : offs < sz) (hlen : B.length ≤ sz) (hwrap : sz < offs + B.length) :
    readBytes (memcpyTo (memcpyTo a offs (B.take (sz - offs))) 0 (B.drop (sz - offs)))
        offs (sz - offs) ++
      readBytes (memcpyTo (memcpyTo a offs (B.take (sz - offs))) 0 (B.drop (sz - offs)))
        0 (B.length - (sz - offs)) = B := by
  have htake : (B.take (sz - offs)).length = sz - offs := by
    rw [List.length_take]
    omega
  have hdrop : (B.drop (sz - offs)).length = B.length - (sz - offs) :=
    List.length_drop _ _
  have h1 : readBytes (memcpyTo (memcpyTo a offs (B.take (sz - offs))) 0
      (B.drop (sz - offs))) offs (sz - offs) = B.take (sz - offs) := by
    have hx : readBytes (memcpyTo (memcpyTo a offs (B.take (sz - offs))) 0
        (B.drop (sz - offs))) offs (B.take (sz - offs)).length = B.take (sz - offs) := by
      apply readBytes_eq
      intro i hi
      rw [memcpyTo_ge _ 0 _ _ (by rw [hdrop]; omega)]
      exact memcpyTo_at a offs _ i hi
    rw [htake] at hx
    exact hx
  have h2 : readBytes (memcpyTo (memcpyTo a offs (B.take (sz - offs))) 0
      (B.drop (sz - offs))) 0 (B.length - (sz - offs)) = B.drop (sz - offs) := by
    have hy : readBytes (memcpyTo (memcpyTo a offs (B.take (sz - offs))) 0
        (B.drop (sz - offs))) 0 (B.drop (sz - offs)).length = B.drop (sz - offs) := by
      apply readBytes_eq
      intro i hi
      exact memcpyTo_at _ 0 _ i hi
    rw [hdrop] at hy
    exact hy
  rw [h1, h2, List.take_append_drop]

theorem ps_packet_check_core {s s1 : State} (pk : Packet) (h : ReserveCore s s1) :
    ps_packet_check s1 pk = ps_packet_check s pk := by
  simp [ps_packet_check, ps_buffer_check, h.2.1, h.2.2.1]

/-- C3: writing bytes `B` at cursor `pos` with `ps_packet_write` and then
reading `|B|` bytes from cursor `pos` of the same packet with
`ps_packet_read` yields exactly `B`, wrap-split included.  `hvalid` is
the setsize capacity invariant of a frozen packet (its payload plus two
header slots fit the arena). -/
theorem write_read_roundtrip (hs : Headers) (a : Arena) (s : State) (pk : Packet)
    (B : List Nat) (fuel : Nat) (s' : State) (hs' : Headers) (a' : Arena) (pk' : Packet)
    (hw : ps_packet_write hs a s pk B fuel = some (0, s', hs', a', pk'))
    (hvalid : pk.sizeSet = true → (hs pk.buffer_pos).size + 2 * headerSize ≤ s.size) :
    ps_packet_read hs' a' s' pk B.length =
      (0, B, { pk with pos := pk.pos + B.length }) := by
  simp only [ps_packet_write] at hw
  by_cases hc : ps_packet_check s pk = 0
  case neg =>
    rw [if_pos (by simpa using hc)] at hw
    simp only [Option.some.injEq, Prod.mk.injEq] at hw
    exact absurd hw.1 hc
  rw [if_neg (by simp [hc])] at hw
  by_cases hss : pk.sizeSet = true
  · rw [if_pos hss] at hw
    by_cases hb : pk.pos + B.length > (hs pk.buffer_pos).size
    · rw [if_pos hb] at hw
      simp only [Option.some.injEq, Prod.mk.injEq] at hw
      exact absurd hw.1.symm (by decide)
    · rw [if_neg hb] at hw
      simp only [writeFinish, Option.some.injEq, Prod.mk.injEq] at hw
      obtain ⟨-, hseq, hhs, ha, hpk⟩ := hw
      have hgrow : ¬(pk.pos + B.length > (hs pk.buffer_pos).size) := hb
      rw [if_neg (by simpa using hgrow)] at hhs
      have hH : headerSize = 16 := rfl
      have hsz : 0 < s.size := by have := hvalid hss; omega
      have hblen : B.length ≤ s.size := by have := hvalid hss; omega
      subst hseq; subst hhs; subst ha; subst hpk
      simp only [ps_packet_read, hc]
      rw [if_neg (by simp)]
      rw [if_neg (by omega)]
      have hoffs : (pk.buffer_pos + headerSize + pk.pos) % s.size < s.size :=
        Nat.mod_lt _ hsz
      by_cases hwrap :
          (pk.buffer_pos + headerSize + pk.pos) % s.size + B.length > s.size
      · rw [if_pos hwrap, if_pos hwrap]
        rw [copy_roundtrip_wrap a s.size _ B hoffs hblen (by omega)]
      · rw [if_neg hwrap, if_neg hwrap]
        rw [copy_roundtrip_nowrap]
  · rw [if_neg hss] at hw
    by_cases hcap : pk.pos + B.length + headerSize * 2 > s.size
    · rw [if_pos hcap] at hw
      simp only [Option.some.injEq, Prod.mk.injEq] at hw
      exact absurd hw.1.symm (by decide)
    · rw [if_neg hcap] at hw
      split at hw
      · exact Option.noConfusion hw
      · rename_i r1 s1 pk1 heq
        have hcore := ps_packet_reserve_core hs s pk _ fuel r1 s1 pk1 heq
        have hpk1 : pk1.buffer_pos = pk.buffer_pos ∧ pk1.pos = pk.pos ∧
            pk1.sizeSet = pk.sizeSet ∧ pk1.read = pk.read ∧ pk1.write = pk.write := by
          rcases hcore.2.1 with h | h <;> rw [h] <;> exact ⟨rfl, rfl, rfl, rfl, rfl⟩
        split at hw
        · simp only [Option.some.injEq, Prod.mk.injEq] at hw
          rename_i hne
          exact absurd hw.1.symm (by intro h0; exact hne h0.symm)
        · rename_i hr1
          simp only [writeFinish, Option.some.injEq, Prod.mk.injEq] at hw
          obtain ⟨-, hseq, hhs, ha, hpk⟩ := hw
          have hH : headerSize = 16 := rfl
          have hsz : 0 < s.size := by omega
          have hblen : B.length ≤ s.size := by omega
          have hcheck1 : ps_packet_check s1 pk = 0 := by
            rw [ps_packet_check_core pk hcore.1]
            exact hc
          have hs1sz : s1.size = s.size := hcore.1.1
          subst hseq; subst ha; subst hpk
          simp only [ps_packet_read, hcheck1]
          rw [if_neg (by simp)]
          have hbound : pk.pos + B.length ≤ (hs' pk.buffer_pos).size := by
            rw [← hhs]
            simp only [hpk1.1, hpk1.2.1]
            split
            · simp [setHeader]
            · omega
          rw [if_neg (by omega)]
          simp only [hpk1.1, hpk1.2.1]
          have hoffs : (pk.buffer_pos + headerSize + pk.pos) % s1.size < s1.size := by
            apply Nat.mod_lt
            omega
          have hblen1 : B.length ≤ s1.size := by omega
          by_cases hwrap :
              (pk.buffer_pos + headerSize + pk.pos) % s1.size + B.length > s1.size
          · rw [if_pos hwrap, if_pos hwrap]
            rw [copy_roundtrip_wrap a s1.size _ B hoffs hblen1 (by omega)]
          · rw [if_neg hwrap, if_neg hwrap]
            rw [copy_roundtrip_nowrap]

/-- Headers for the C3 witness: a frozen 16-byte packet at offset 40 of
a 64-byte arena, whose payload run 56..72 wraps at the arena end. -/
def hsC : Headers := fun p => if p = 40 then ⟨false, false, 16⟩ else Header.zero

/-- Buffer state for the C3 witness. -/
def stC : State := {
  ready := true, cancelled := false, pshared := false, stats := false,
  size := 64,
  read_pos := 0, write_pos := 0, read_next := 0, write_next := 0, read_first := 0,
  free_bytes := 0, read_packets := 0, written_packets := 0 }

/-- A frozen write handle on the packet at offset 40. -/
def pkC : Packet := {
  write := true, read := false, isTry := false, sizeSet := true,
  buffer_pos := 40, pos := 0, reserved := 32, fakeDma := [] }

/-- The 16 payload bytes of the C3 witness. -/
def BC : List Nat := [1, 2, 3, 4, 5, 6, 7, 8, 9, 10, 11, 12, 13, 14, 15, 16]

/-- All-zero arena for the C3 witness. -/
def aC : Arena := fun _ => 0

/-- The C3 witness arena after the wrap-split write: 8 bytes at offset 56,
8 bytes at offset 0. -/
def aC3 : Arena := memcpyTo (memcpyTo aC 56 (BC.take 8)) 0 (BC.drop 8)

/-- The C3 witness handle after the write. -/
def pkC3 : Packet := { pkC with pos := 16 }

/-- Witness for C3: the wrap-splitting write of `BC` at offset 56 of the
64-byte arena reads back as exactly `BC`. -/
theorem write_read_roundtrip_witness :
    ps_packet_write hsC aC stC pkC BC 3 = some (0, stC, hsC, aC3, pkC3) ∧
    (pkC.sizeSet = true → (hsC pkC.buffer_pos).size + 2 * headerSize ≤ stC.size) ∧
    ps_packet_read hsC aC3 stC pkC BC.length =
      (0, BC, { pkC with pos := pkC.pos + BC.length }) :=
  ⟨rfl, fun _ => by decide,
   write_read_roundtrip hsC aC stC pkC BC 3 stC hsC aC3 pkC3 rfl (fun _ => by decide)⟩

theorem commitGo_all_free (fuel : Nat) (hs : Headers) (a : Arena) (s : State) (pk : Packet) :
    ∀ l, (∀ d ∈ l, d.free = true) → commitGo fuel hs a s pk l = some (0, s, hs, a, pk, l) := by
  intro l
  induction l with
  | nil => intro h; rfl
  | cons d rest ih =>
    intro h
    have hd : d.free = true := h d (List.mem_cons_self ..)
    simp only [commitGo]
    rw [if_pos hd]
    rw [ih (fun e he => h e (List.mem_cons_of_mem _ he))]

theorem commitall_all_free (hs : Headers) (a : Arena) (s : State) (pk : Packet) (fuel : Nat)
    (h : ∀ d ∈ pk.fakeDma, d.free = true) :
    ps_packet_fakedma_commitall hs a s pk fuel = some (0, s, hs, a, pk) := by
  simp only [ps_packet_fakedma_commitall]
  rw [commitGo_all_free fuel hs a s pk pk.fakeDma h]

theorem closeWalk_chain (hs : Headers) (sz : Nat) :
    ∀ k p fuel, 1 ≤ k → k ≤ fuel →
      (∀ i, 1 ≤ i → i < k → (hs (chainPos hs sz p i)).written = true) →
      (hs (chainPos hs sz p k)).written = false →
      closeWalk hs sz fuel p = some (chainPos hs sz p k, k) := by
  intro k
  induction k with
  | zero => intro p fuel h1; omega
  | succ m ih =>
    intro p fuel h1 hf hwrit hclear
    obtain ⟨f, rfl⟩ : ∃ f, fuel = f + 1 := ⟨fuel - 1, by omega⟩
    simp only [closeWalk]
    by_cases hm : m = 0
    · subst hm
      simp only [chainPos] at hclear
      rw [if_neg (by simp [hclear])]
      simp [chainPos]
    · have hw1 : (hs (move_pos p sz (hs p).size)).written = true := by
        have := hwrit 1 (by omega) (by omega)
        simpa [chainPos] using this
      rw [if_pos hw1]
      have hrec := ih (move_pos p sz (hs p).size) f (by omega) (by omega)
        (fun i hi1 hi2 => hwrit (i + 1) (by omega) (by omega))
        hclear
      rw [hrec]
      simp [chainPos]

/-- C1: for a frozen write packet with no pending fake-DMA staging, when
its header offset equals `write_pos`, `ps_packet_closewrite` sets the
WRITTEN bit and walks the wrap rule across the `k` consecutive WRITTEN
headers, posting `written_packets` exactly once per header walked over,
and leaves `write_pos` at the first header whose WRITTEN bit is clear;
when `write_pos` differs from the packet's offset it only sets the
WRITTEN bit, posts nothing, and leaves `write_pos` (and all other state)
unchanged. -/
theorem ps_packet_closewrite_spec (hs : Headers) (a : Arena) (s : State) (pk : Packet)
    (fuel k : Nat)
    (hset : pk.sizeSet = true)
    (hdma : ∀ d ∈ pk.fakeDma, d.free = true) :
    (s.write_pos = pk.buffer_pos →
      (∀ i, 1 ≤ i → i < k →
        ((markWritten hs pk.buffer_pos)
          (chainPos (markWritten hs pk.buffer_pos) s.size pk.buffer_pos i)).written = true) →
      ((markWritten hs pk.buffer_pos)
        (chainPos (markWritten hs pk.buffer_pos) s.size pk.buffer_pos k)).written = false →
      1 ≤ k → k ≤ fuel →
      ps_packet_closewrite hs a s pk fuel = some (0,
        { s with
          write_pos := chainPos (markWritten hs pk.buffer_pos) s.size pk.buffer_pos k,
          written_packets := s.written_packets + k },
        markWritten hs pk.buffer_pos, a, pkClear pk)) ∧
    (s.write_pos ≠ pk.buffer_pos →
      ps_packet_closewrite hs a s pk fuel =
        some (0, s, markWritten hs pk.buffer_pos, a, pkClear pk)) := by
  have hcw : ps_packet_closewrite hs a s pk fuel = closewriteRest hs a s pk fuel := by
    simp only [ps_packet_closewrite]
    rw [if_neg (by simp [hset])]
  constructor
  · intro halign hwrit hclear hk1 hkf
    rw [hcw]
    simp only [closewriteRest]
    rw [commitall_all_free hs a s pk fuel hdma]
    dsimp only
    rw [if_pos halign]
    rw [closeWalk_chain (markWritten hs pk.buffer_pos) s.size k pk.buffer_pos fuel
      hk1 hkf hwrit hclear]
    rw [if_neg (by simp)]
  · intro hdiff
    rw [hcw]
    simp only [closewriteRest]
    rw [commitall_all_free hs a s pk fuel hdma]
    dsimp only
    rw [if_neg hdiff]
    rw [if_neg (by simp)]

/-- Headers for the C1 witness: a frozen 16-byte packet at offset 0 of a
64-byte arena; the following header (offset 32) is clear. -/
def hsE : Headers := fun p => if p = 0 then ⟨false, false, 16⟩ else Header.zero

/-- Buffer state for the C1 witness: the closing packet holds the commit
tail (`write_pos = 0`). -/
def stE : State := {
  ready := true, cancelled := false, pshared := false, stats := false,
  size := 64,
  read_pos := 0, write_pos := 0, read_next := 0, write_next := 32, read_first := 0,
  free_bytes := 0, read_packets := 0, written_packets := 0 }

/-- A frozen write handle on the packet at offset 0 for the C1 witness. -/
def pkE : Packet := {
  write := true, read := false, isTry := false, sizeSet := true,
  buffer_pos := 0, pos := 16, reserved := 32, fakeDma := [] }

/-- Witness for C1: closing the tail packet at offset 0 posts
`written_packets` once (`k = 1`) and moves `write_pos` to offset 32, the
first non-written header. -/
theorem ps_packet_closewrite_spec_witness :
    pkE.sizeSet = true ∧ (∀ d ∈ pkE.fakeDma, d.free = true) ∧
    ((stE.write_pos = pkE.buffer_pos →
      (∀ i, 1 ≤ i → i < 1 →
        ((markWritten hsE pkE.buffer_pos)
          (chainPos (markWritten hsE pkE.buffer_pos) stE.size pkE.buffer_pos i)).written =
            true) →
      ((markWritten hsE pkE.buffer_pos)
        (chainPos (markWritten hsE pkE.buffer_pos) stE.size pkE.buffer_pos 1)).written =
          false →
      1 ≤ 1 → 1 ≤ 3 →
      ps_packet_closewrite hsE aC stE pkE 3 = some (0,
        { stE with
          write_pos := chainPos (markWritten hsE pkE.buffer_pos) stE.size pkE.buffer_pos 1,
          written_packets := stE.written_packets + 1 },
        markWritten hsE pkE.buffer_pos, aC, pkClear pkE)) ∧
     (stE.write_pos ≠ pkE.buffer_pos →
      ps_packet_closewrite hsE aC stE pkE 3 =
        some (0, stE, markWritten hsE pkE.buffer_pos, aC, pkClear pkE))) ∧
    ps_packet_closewrite hsE aC stE pkE 3 = some (0,
      { stE with
        write_pos := chainPos (markWritten hsE pkE.buffer_pos) stE.size pkE.buffer_pos 1,
        written_packets := stE.written_packets + 1 },
      markWritten hsE pkE.buffer_pos, aC, pkClear pkE) := by
  have hmain := ps_packet_closewrite_spec hsE aC stE pkE 3 1 rfl (by simp [pkE])
  refine ⟨rfl, by simp [pkE], hmain, ?_⟩
  exact hmain.1 rfl (fun i hi1 hi2 => by omega) (by decide) (by decide) (by decide)

/-- Witness for C9 on `stW` / `pkW`. -/
theorem ps_packet_cancel_spec_witness :
    stW.ready = true ∧ stW.cancelled = false ∧
    ((¬(pkW.write = true ∧ pkW.sizeSet = false) →
        ps_packet_cancel hs0 stW pkW = (EINVAL, stW, hs0, pkW)) ∧
     (pkW.write = true ∧ pkW.sizeSet = false →
      ∃ s' hs' pk',
        ps_packet_cancel hs0 stW pkW = (0, s', hs', pk') ∧
        s'.free_bytes = stW.free_bytes + (pkW.reserved : Int) ∧
        hs' pkW.buffer_pos = Header.zero ∧
        (∀ q, q ≠ pkW.buffer_pos → hs' q = hs0 q) ∧
        (∀ d ∈ pk'.fakeDma, d.free = true) ∧
        s'.read_pos = stW.read_pos ∧ s'.write_pos = stW.write_pos ∧
        s'.read_next = stW.read_next ∧ s'.write_next = stW.write_next ∧
        s'.read_first = stW.read_first)) :=
  ⟨rfl, rfl, ps_packet_cancel_spec hs0 stW pkW rfl rfl⟩
